import Mathlib

/-!
Verification development for the `ensembl` CORBA artemis test server.

The repository fragment under scrutiny contains the bootstrap
`src/corba/artemis/test-artentry-server.c`, which constructs a
`SimpleObjectManager` (the object-lifecycle/lease manager) and one
`Ensembl_artemis_Entry` domain object, writes the object reference to
`entry.ior`, and enters the ORB request loop.

Part A below is a model of the lease manager (its implementation is not part
of the visible sources; only this caller is).  Part B is a shallow embedding
of `main` itself as the deterministic trace of external calls it performs.
-/

/- ## Part A: the lease manager model -/

/-- Modelled from the spec: the per-record lifecycle state of the
`SimpleObjectManager` (whose implementation is absent from the visible
sources); `{ACTIVE, DRAINING, EVICTED}` per the data model section. -/
inductive ObjState where
  | ACTIVE
  | DRAINING
  | EVICTED
deriving DecidableEq

/-- Modelled from the spec: the `ManagedObjectRecord` bookkeeping unit of the
`SimpleObjectManager` (implementation absent from the visible sources):
id, timestamps, owned resource handle, reference count and state. -/
structure Record where
  id : Nat
  createdAt : Int
  lastTouchedAt : Int
  resourceHandle : Nat
  refCount : Nat
  state : ObjState
deriving DecidableEq

/-- Modelled from the spec: the lease-store errors `DuplicateId`, `NotFound`,
`NotEligible`, `ObjectGone` of the missing `SimpleObjectManager`. -/
inductive LeaseError where
  | DuplicateId
  | NotFound
  | NotEligible
  | ObjectGone
deriving DecidableEq

/-- Modelled from the spec: the errors of the manager facade `create`
operation of the missing `SimpleObjectManager`: `CapacityExceeded`,
resource-acquisition failure and construction failure. -/
inductive CreateError where
  | CapacityExceeded
  | AcquireFailed
  | ConstructFailed
deriving DecidableEq

/-- Modelled from the spec: the `SimpleObjectManager` state (implementation
absent from the visible sources): the lease store plus the fixed
configuration `{idleTimeout, sweepInterval, maxConcurrent, persistent}`.
Eviction logically removes a record from the store; the model keeps the
record marked `EVICTED`, and every observation (`touch`, `lookup`, sizes,
snapshots) treats an `EVICTED` record as absent.  `nextId` and `nextHandle`
are the id / resource-handle allocators; `released` is the multiset of
resource handles handed back to the resource provider. -/
structure Manager where
  store : List Record
  nextId : Nat
  nextHandle : Nat
  released : List Nat
  idleTimeout : Int
  sweepInterval : Int
  maxConcurrent : Nat
  persistent : Bool
deriving DecidableEq

/-- First record in the store carrying the given id, if any. -/
def findRec : List Record → Nat → Option Record
  | [], _ => none
  | r :: rs, i => if r.id = i then some r else findRec rs i

/-- Replace the first record carrying the given id by its image under `f`. -/
def updateById : List Record → Nat → (Record → Record) → List Record
  | [], _, _ => []
  | r :: rs, i, f => if r.id = i then f r :: rs else r :: updateById rs i f

/-- Number of occurrences of a value in a list of naturals. -/
def countNat : List Nat → Nat → Nat
  | [], _ => 0
  | x :: xs, h => (if x = h then 1 else 0) + countNat xs h

/-- Number of records not yet evicted (the store size, since eviction
logically removes a record). -/
def liveRecordCount : List Record → Nat
  | [] => 0
  | r :: rs => (if r.state = .EVICTED then 0 else 1) + liveRecordCount rs

/-- Number of non-evicted records owning the given resource handle. -/
def liveHandleCount : List Record → Nat → Nat
  | [], _ => 0
  | r :: rs, h =>
      (if r.state ≠ .EVICTED ∧ r.resourceHandle = h then 1 else 0) + liveHandleCount rs h

/-- Resource handles of all non-evicted records. -/
def liveHandles : List Record → List Nat
  | [] => []
  | r :: rs => if r.state = .EVICTED then liveHandles rs else r.resourceHandle :: liveHandles rs

/-- Modelled from the spec: `snapshotIds` of the missing lease store — the
point-in-time sequence of ids still in the store (draining records are still
in the store and must be visited so the sweep can finish them). -/
def snapshotIds : List Record → List Nat
  | [] => []
  | r :: rs => if r.state = .EVICTED then snapshotIds rs else r.id :: snapshotIds rs

/-- Record update performed by a lease renewal: set `lastTouchedAt`. -/
def touchF (now : Int) (s : Record) : Record :=
  { s with lastTouchedAt := now }

/-- Record update performed by an invocation start: renew the lease and pin
the record. -/
def startF (now : Int) (s : Record) : Record :=
  { s with lastTouchedAt := now, refCount := s.refCount + 1 }

/-- Record update performed by an invocation end: unpin the record. -/
def endF (s : Record) : Record :=
  { s with refCount := s.refCount - 1 }

/-- Record update putting a record into the DRAINING state. -/
def drainF (s : Record) : Record :=
  { s with state := .DRAINING }

/-- Record update putting a record into the EVICTED state. -/
def evictF (s : Record) : Record :=
  { s with state := .EVICTED }

/-- Modelled from the spec: `touch(id)` of the missing lease store — fails
with `NotFound` if the id is absent or no longer ACTIVE (an evicted record is
logically removed; a draining record admits no new lease); otherwise sets
`lastTouchedAt = now`. -/
def touch (m : Manager) (i : Nat) (now : Int) : Except LeaseError Manager :=
  match findRec m.store i with
  | some r =>
      if r.state = .ACTIVE then
        .ok { m with store := updateById m.store i (touchF now) }
      else .error .NotFound
  | none => .error .NotFound

/-- Modelled from the spec: `lookup(id)` of the missing lease store — returns
the record or `NotFound`, mutating nothing; an evicted record is absent. -/
def lookup (m : Manager) (i : Nat) : Except LeaseError Record :=
  match findRec m.store i with
  | some r => if r.state = .EVICTED then .error .NotFound else .ok r
  | none => .error .NotFound

/-- Modelled from the spec: `removeIfIdle(id, now, timeout)` of the missing
lease store — atomically checks
`state == ACTIVE && refCount == 0 && now - lastTouchedAt >= timeout`; exactly
then transitions the record to EVICTED, hands its resource handle back, and
returns the record; otherwise returns `NotEligible`. -/
def removeIfIdle (m : Manager) (i : Nat) (now timeout : Int) :
    Except LeaseError (Manager × Record) :=
  match findRec m.store i with
  | some r =>
      if r.state = .ACTIVE ∧ r.refCount = 0 ∧ timeout ≤ now - r.lastTouchedAt then
        .ok ({ m with store := updateById m.store i evictF,
                      released := m.released ++ [r.resourceHandle] },
             evictF r)
      else .error .NotEligible
  | none => .error .NotEligible

/-- Modelled from the spec: the adaptor hook `onInvocationStart(id)` of the
missing `SimpleObjectManager` — touches the record and increments `refCount`;
fails with `ObjectGone` when the id is absent or not ACTIVE. -/
def onInvocationStart (m : Manager) (i : Nat) (now : Int) : Except LeaseError Manager :=
  match findRec m.store i with
  | some r =>
      if r.state = .ACTIVE then
        .ok { m with store := updateById m.store i (startF now) }
      else .error .ObjectGone
  | none => .error .ObjectGone

/-- Modelled from the spec: the adaptor hook `onInvocationEnd` of the missing
`SimpleObjectManager` — decrements `refCount`; never fails (a vanished id is
merely logged, so the model leaves the state unchanged then). -/
def onInvocationEnd (m : Manager) (i : Nat) : Manager :=
  match findRec m.store i with
  | some r =>
      if r.state ≠ .EVICTED ∧ 1 ≤ r.refCount then
        { m with store := updateById m.store i endF }
      else m
  | none => m

/-- Modelled from the spec: the adaptor hook `onExplicitDestroy(id)` of the
missing `SimpleObjectManager` — on an ACTIVE record with `refCount == 0`,
evicts immediately regardless of idle time (the resource handle is handed
back); with `refCount > 0`, transitions to DRAINING; otherwise no effect. -/
def onExplicitDestroy (m : Manager) (i : Nat) : Manager :=
  match findRec m.store i with
  | some r =>
      if r.state = .ACTIVE then
        if r.refCount = 0 then
          { m with store := updateById m.store i evictF,
                   released := m.released ++ [r.resourceHandle] }
        else
          { m with store := updateById m.store i drainF }
      else m
  | none => m

/-- Modelled from the spec: one sweep visit of the missing sweep scheduler —
calls `removeIfIdle` with the configured timeout, and additionally finishes a
DRAINING record whose `refCount` has returned to zero. -/
def sweepOne (m : Manager) (now : Int) (i : Nat) : Manager :=
  match removeIfIdle m i now m.idleTimeout with
  | .ok (m', _) => m'
  | .error _ =>
      match findRec m.store i with
      | some r =>
          if r.state = .DRAINING ∧ r.refCount = 0 then
            { m with store := updateById m.store i evictF,
                     released := m.released ++ [r.resourceHandle] }
          else m
      | none => m

/-- Modelled from the spec: one cycle of the missing sweep scheduler —
snapshot the ids, then visit each with `sweepOne`. -/
def sweepCycle (m : Manager) (now : Int) : Manager :=
  (snapshotIds m.store).foldl (fun acc i => sweepOne acc now i) m

/-- Modelled from the spec: the manager facade `create` of the missing
`SimpleObjectManager` — fails with `CapacityExceeded` when `maxConcurrent`
is configured and reached; then acquires the resource (`acquireOk` models
the provider's answer) and builds the domain object (`constructOk`); any
failure propagates and fully rolls back (an acquired handle is handed back,
the store is untouched); on success a fresh ACTIVE record is inserted. -/
def create (m : Manager) (acquireOk constructOk : Bool) (now : Int) :
    Manager × Except CreateError Nat :=
  if m.maxConcurrent ≠ 0 ∧ m.maxConcurrent ≤ liveRecordCount m.store then
    (m, .error .CapacityExceeded)
  else if acquireOk = false then
    (m, .error .AcquireFailed)
  else if constructOk = false then
    ({ m with nextHandle := m.nextHandle + 1, released := m.released ++ [m.nextHandle] },
     .error .ConstructFailed)
  else
    ({ m with store := m.store ++ [⟨m.nextId, now, now, m.nextHandle, 0, .ACTIVE⟩],
              nextId := m.nextId + 1, nextHandle := m.nextHandle + 1 },
     .ok m.nextId)

/-- Modelled from the spec: `shutdown()` of the missing `SimpleObjectManager`
— evicts every remaining record regardless of idleness, handing every still
owned resource handle back. -/
def shutdown (m : Manager) : Manager :=
  { m with store := m.store.map evictF,
           released := m.released ++ liveHandles m.store }

/-- Modelled from the spec: a freshly constructed `SimpleObjectManager` with
the given configuration — empty store, no handle acquired yet. -/
def initManager (idleTimeout sweepInterval : Int) (maxConcurrent : Nat) (persistent : Bool) :
    Manager :=
  { store := [], nextId := 0, nextHandle := 0, released := [],
    idleTimeout := idleTimeout, sweepInterval := sweepInterval,
    maxConcurrent := maxConcurrent, persistent := persistent }

/-- The fresh ACTIVE record `create` inserts when id and handle allocators
both stand at `n`, at time `now`. -/
def mkRec (n : Nat) (now : Int) : Record :=
  ⟨n, now, now, n, 0, .ACTIVE⟩

/-- The manager after `n` fully successful `create` calls, all at time
`now`. -/
def iterCreate (m : Manager) (now : Int) : Nat → Manager
  | 0 => m
  | n + 1 => (create (iterCreate m now n) true true now).1

/-- One manager-level operation, for interleaving arguments: each constructor
is one call some client (invocation thread, sweep scheduler, facade caller)
can make on the shared manager. -/
inductive Op where
  | touchOp (i : Nat) (now : Int)
  | lookupOp (i : Nat)
  | invStartOp (i : Nat) (now : Int)
  | invEndOp (i : Nat)
  | destroyOp (i : Nat)
  | removeIfIdleOp (i : Nat) (now timeout : Int)
  | sweepOp (now : Int)
  | createOp (acquireOk constructOk : Bool) (now : Int)
  | shutdownOp
deriving DecidableEq

/-- Effect of one operation on the manager state (a failed operation leaves
the state unchanged). -/
def applyOp (m : Manager) : Op → Manager
  | .touchOp i now =>
      match touch m i now with
      | .ok m' => m'
      | .error _ => m
  | .lookupOp _ => m
  | .invStartOp i now =>
      match onInvocationStart m i now with
      | .ok m' => m'
      | .error _ => m
  | .invEndOp i => onInvocationEnd m i
  | .destroyOp i => onExplicitDestroy m i
  | .removeIfIdleOp i now t =>
      match removeIfIdle m i now t with
      | .ok (m', _) => m'
      | .error _ => m
  | .sweepOp now => sweepCycle m now
  | .createOp aok cok now => (create m aok cok now).1
  | .shutdownOp => shutdown m

/-- Effect of a sequence of operations, first to last. -/
def applyOps (m : Manager) (ops : List Op) : Manager :=
  ops.foldl applyOp m

/-- Manager states reachable from a fresh construction by any operation
sequence. -/
inductive Reachable : Manager → Prop where
  | init (t s : Int) (k : Nat) (p : Bool) : Reachable (initManager t s k p)
  | step (m : Manager) (op : Op) : Reachable m → Reachable (applyOp m op)

/-- Accounting invariant: every handle below the allocator has been acquired
exactly once and is, exclusively, either still owned by a live record or
present exactly once among the released handles; nothing else was ever
released. -/
def HandleInv (m : Manager) : Prop :=
  ∀ h : Nat, countNat m.released h + liveHandleCount m.store h =
    if h < m.nextHandle then 1 else 0

/-- The record is present, not evicted, and pinned by at least one in-flight
invocation. -/
def pinnedB (m : Manager) (i : Nat) : Bool :=
  match findRec m.store i with
  | some r => decide (r.state ≠ .EVICTED) && decide (1 ≤ r.refCount)
  | none => false

/-- How often the resource handle owned by record `i` occurs among the
released handles (0 when the id is absent). -/
def releasedCountOf (m : Manager) (i : Nat) : Nat :=
  match findRec m.store i with
  | some r => countNat m.released r.resourceHandle
  | none => 0

/-- Operations that are neither the matching `onInvocationEnd` for the given
id nor a full manager shutdown: the interleavings against which an in-flight
invocation is protected. -/
def NonReleasing (op : Op) (i : Nat) : Prop :=
  match op with
  | .invEndOp i' => i' ≠ i
  | .shutdownOp => False
  | _ => True

/-- The record for `i` is present, not evicted, pinned by at least one
in-flight invocation, and owns resource handle `h`. -/
def PinnedWith (m : Manager) (i h : Nat) : Prop :=
  ∃ r, findRec m.store i = some r ∧ r.state ≠ .EVICTED ∧ 1 ≤ r.refCount ∧
    r.resourceHandle = h

/-- The record for `i` is present but no longer ACTIVE (draining or evicted):
no new lease can ever be granted on it. -/
def Retired (m : Manager) (i : Nat) : Prop :=
  ∃ r, findRec m.store i = some r ∧ r.state ≠ .ACTIVE

/-- The record for `i` is present and equal to `r` (used to state that an
evicted record is frozen forever). -/
def FrozenAt (m : Manager) (i : Nat) (r : Record) : Prop :=
  findRec m.store i = some r

/- ## Part B: the visible bootstrap `main` of test-artentry-server.c -/

/-- A C stream as `main` sees one: the process's stderr, or the result of an
`fopen` (`fileH false` is the NULL stream). -/
inductive CFile where
  | stderrF
  | fileH (ok : Bool)
deriving DecidableEq

/-- The two signals `main` installs a handler for. -/
inductive Sig where
  | SIGINT
  | SIGTERM
deriving DecidableEq

/-- The handler installed: the C library function `exit`, or nothing in this
program. -/
inductive SigHandler where
  | sigExit
deriving DecidableEq

/-- One external call performed by `main` of test-artentry-server.c.
Constructors such as `somShutdownCall`, `mysqlCloseCall`, `evictCall` and
`atexitCall` exist so that their absence from the actual trace is a statement
about the program. -/
inductive MainEvent where
  | fprintfCall (f : CFile) (s : String)
  | mysqlInitCall
  | mysqlRealConnectCall (host user db : String) (ok : Bool)
  | mysqlCloseCall
  | signalCall (sig : Sig) (h : SigHandler)
  | atexitCall
  | corbaExceptionInitCall
  | orbInitCall (orbName : String)
  | resolvePOACall
  | poaActivateCall
  | newSimpleObjectManagerCall (log : CFile) (a1 a2 : Nat) (timeout : Nat) (objName : String)
      (sweepInterval flag reserved : Nat)
  | somShutdownCall
  | evictCall
  | getAdaptorCall
  | newEntryCall (conn : Option Nat) (entryName : Option String)
  | objectToStringCall
  | fopenCall (path mode : String) (ok : Bool)
  | fcloseCall (f : CFile)
  | corbaFreeCall
  | orbRunCall
  | returnFromMain (code : Nat)
deriving DecidableEq

/-- Environment of one run of `main`: `argv1` is `argv[1]` (none when the
process got no argument, i.e. a NULL pointer), `connectOk` whether
`mysql_real_connect` returns a connection (false = NULL), `fopenOk` whether
`fopen("entry.ior","w")` succeeds, `ior` the string
`CORBA_ORB_object_to_string` produces. -/
structure Env where
  argv1 : Option String
  connectOk : Bool
  fopenOk : Bool
  ior : String
deriving DecidableEq

/-- The connection value `main` passes on: the handle on success, NULL
(`none`) on failure — `main` never checks it. -/
def connResult (e : Env) : Option Nat :=
  if e.connectOk then some 0 else none

/-- The stream `main` writes the IOR to: possibly the NULL stream — `main`
never checks it. -/
def iorFile (e : Env) : CFile :=
  .fileH e.fopenOk

/-- The straight-line trace of external calls `main` performs, in program
order, faithful to src/corba/artemis/test-artentry-server.c.  There is no
branch: the trace shape is the same in every environment. -/
def mainEvents (e : Env) : List MainEvent :=
  [ .fprintfCall .stderrF "Got in...\n"
  , .mysqlInitCall
  , .mysqlRealConnectCall "localhost" "root" "ensdev" e.connectOk
  , .fprintfCall .stderrF "Connected...\n"
  , .signalCall .SIGINT .sigExit
  , .signalCall .SIGTERM .sigExit
  , .corbaExceptionInitCall
  , .orbInitCall "orbit-local-orb"
  , .resolvePOACall
  , .poaActivateCall
  , .newSimpleObjectManagerCall .stderrF 0 0 60 "test-entry" 60 1 0
  , .getAdaptorCall
  , .fprintfCall .stderrF "About to make...\n"
  , .newEntryCall (connResult e) e.argv1
  , .fprintfCall .stderrF "Made...\n"
  , .objectToStringCall
  , .fopenCall "entry.ior" "w" e.fopenOk
  , .fprintfCall (iorFile e) (e.ior ++ "\n")
  , .fcloseCall (iorFile e)
  , .corbaFreeCall
  , .fprintfCall .stderrF "Waiting for Entry requests...\n"
  , .orbRunCall
  , .returnFromMain 0 ]

/-- Recognizes a `SimpleObjectManager` construction event. -/
def isNewSOMCall : MainEvent → Bool
  | .newSimpleObjectManagerCall _ _ _ _ _ _ _ _ => true
  | _ => false

/-- Recognizes an Entry domain-object construction event. -/
def isNewEntryCall : MainEvent → Bool
  | .newEntryCall _ _ => true
  | _ => false

/-- Recognizes a cleanup/release action: manager shutdown, an eviction, or a
database disconnect. -/
def isCleanupCall : MainEvent → Bool
  | .somShutdownCall => true
  | .evictCall => true
  | .mysqlCloseCall => true
  | _ => false

/-- Recognizes an `atexit` registration. -/
def isAtexitCall : MainEvent → Bool
  | .atexitCall => true
  | _ => false

/-- Constructor shape of an event, to state that the trace has the same
shape in every environment. -/
def eventKind : MainEvent → Nat
  | .fprintfCall _ _ => 0
  | .mysqlInitCall => 1
  | .mysqlRealConnectCall _ _ _ _ => 2
  | .mysqlCloseCall => 3
  | .signalCall _ _ => 4
  | .atexitCall => 5
  | .corbaExceptionInitCall => 6
  | .orbInitCall _ => 7
  | .resolvePOACall => 8
  | .poaActivateCall => 9
  | .newSimpleObjectManagerCall _ _ _ _ _ _ _ _ => 10
  | .somShutdownCall => 11
  | .evictCall => 12
  | .getAdaptorCall => 13
  | .newEntryCall _ _ => 14
  | .objectToStringCall => 15
  | .fopenCall _ _ _ => 16
  | .fcloseCall _ => 17
  | .corbaFreeCall => 18
  | .orbRunCall => 19
  | .returnFromMain _ => 20

/- ## Helper lemmas on the list primitives -/

theorem countNat_append (l₁ l₂ : List Nat) (h : Nat) :
    countNat (l₁ ++ l₂) h = countNat l₁ h + countNat l₂ h := by
  induction l₁ with
  | nil => simp [countNat]
  | cons x xs ih => simp [countNat, ih, Nat.add_assoc]

theorem updateById_of_none (s : List Record) (i : Nat) (f : Record → Record)
    (h : findRec s i = none) : updateById s i f = s := by
  induction s with
  | nil => rfl
  | cons r rs ih =>
    simp only [findRec] at h
    by_cases hr : r.id = i
    · simp [hr] at h
    · rw [if_neg hr] at h
      simp only [updateById, if_neg hr, ih h]

theorem findRec_updateById_self (s : List Record) (i : Nat) (f : Record → Record)
    (hid : ∀ r, (f r).id = r.id) :
    findRec (updateById s i f) i = Option.map f (findRec s i) := by
  induction s with
  | nil => rfl
  | cons r rs ih =>
    by_cases hr : r.id = i
    · simp [updateById, findRec, hr, hid r]
    · simp [updateById, findRec, hr, ih]

theorem findRec_updateById_ne (s : List Record) (i j : Nat) (f : Record → Record)
    (hid : ∀ r, (f r).id = r.id) (hij : j ≠ i) :
    findRec (updateById s i f) j = findRec s j := by
  induction s with
  | nil => rfl
  | cons r rs ih =>
    by_cases hr : r.id = i
    · have hne : ¬(i = j) := fun hc => hij hc.symm
      simp [updateById, findRec, hr, hid r, hne]
    · by_cases hrj : r.id = j
      · simp [updateById, findRec, hr, hrj, hij]
      · simp [updateById, findRec, hr, hrj, ih]

theorem findRec_append_some (s l : List Record) (i : Nat) (r : Record)
    (h : findRec s i = some r) : findRec (s ++ l) i = some r := by
  induction s with
  | nil => simp [findRec] at h
  | cons a as ih =>
    rw [List.cons_append]
    simp only [findRec] at h ⊢
    by_cases ha : a.id = i
    · rwa [if_pos ha] at h ⊢
    · rw [if_neg ha] at h ⊢
      exact ih h

theorem findRec_map (s : List Record) (i : Nat) (f : Record → Record)
    (hid : ∀ r, (f r).id = r.id) :
    findRec (s.map f) i = Option.map f (findRec s i) := by
  induction s with
  | nil => rfl
  | cons a as ih =>
    by_cases ha : a.id = i
    · simp [findRec, hid a, ha]
    · simp [findRec, hid a, ha, ih]

theorem liveHandleCount_updateById_keep (s : List Record) (i : Nat) (f : Record → Record)
    (r : Record) (hfind : findRec s i = some r)
    (hh : (f r).resourceHandle = r.resourceHandle)
    (hs : (f r).state = .EVICTED ↔ r.state = .EVICTED) (h : Nat) :
    liveHandleCount (updateById s i f) h = liveHandleCount s h := by
  induction s with
  | nil => rfl
  | cons a as ih =>
    simp only [findRec] at hfind
    by_cases ha : a.id = i
    · rw [if_pos ha] at hfind
      injection hfind with h1
      subst h1
      simp only [updateById, if_pos ha, liveHandleCount]
      have hcond : ((f a).state ≠ .EVICTED ∧ (f a).resourceHandle = h)
          ↔ (a.state ≠ .EVICTED ∧ a.resourceHandle = h) := by
        rw [hh]
        exact and_congr_left' (not_congr hs)
      rw [if_congr hcond rfl rfl]
    · rw [if_neg ha] at hfind
      simp only [updateById, if_neg ha, liveHandleCount, ih hfind]

theorem liveHandleCount_updateById_evict (s : List Record) (i : Nat) (r : Record)
    (hfind : findRec s i = some r) (hlive : r.state ≠ .EVICTED) (h : Nat) :
    liveHandleCount s h =
      liveHandleCount (updateById s i evictF) h
        + (if r.resourceHandle = h then 1 else 0) := by
  induction s with
  | nil => simp [findRec] at hfind
  | cons a as ih =>
    simp only [findRec] at hfind
    by_cases ha : a.id = i
    · rw [if_pos ha] at hfind
      injection hfind with h1
      subst h1
      simp only [updateById, if_pos ha, liveHandleCount]
      simp [evictF, hlive]
      exact Nat.add_comm _ _
    · rw [if_neg ha] at hfind
      simp only [updateById, if_neg ha, liveHandleCount]
      rw [ih hfind]
      omega

theorem liveHandleCount_append_one (s : List Record) (r : Record) (h : Nat) :
    liveHandleCount (s ++ [r]) h =
      liveHandleCount s h + (if r.state ≠ .EVICTED ∧ r.resourceHandle = h then 1 else 0) := by
  induction s with
  | nil => simp [liveHandleCount]
  | cons a as ih =>
    rw [List.cons_append]
    simp only [liveHandleCount, ih]
    omega

theorem liveHandleCount_map_evict (s : List Record) (h : Nat) :
    liveHandleCount (s.map evictF) h = 0 := by
  induction s with
  | nil => rfl
  | cons a as ih => simp [liveHandleCount, evictF, ih]

theorem countNat_liveHandles (s : List Record) (h : Nat) :
    countNat (liveHandles s) h = liveHandleCount s h := by
  induction s with
  | nil => rfl
  | cons a as ih =>
    by_cases ha : a.state = .EVICTED
    · simp [liveHandles, liveHandleCount, ha, ih]
    · simp [liveHandles, liveHandleCount, countNat, ha, ih]

theorem liveRecordCount_append_one (s : List Record) (r : Record) :
    liveRecordCount (s ++ [r]) =
      liveRecordCount s + (if r.state = .EVICTED then 0 else 1) := by
  induction s with
  | nil => simp [liveRecordCount]
  | cons a as ih =>
    rw [List.cons_append]
    simp only [liveRecordCount, ih]
    omega

theorem liveRecordCount_map_evict (s : List Record) :
    liveRecordCount (s.map evictF) = 0 := by
  induction s with
  | nil => rfl
  | cons a as ih => simp [liveRecordCount, evictF, ih]

theorem findRec_some_live_handle (s : List Record) (i : Nat) (r : Record)
    (hfind : findRec s i = some r) (hlive : r.state ≠ .EVICTED) :
    1 ≤ liveHandleCount s r.resourceHandle := by
  induction s with
  | nil => simp [findRec] at hfind
  | cons a as ih =>
    simp only [findRec] at hfind
    by_cases ha : a.id = i
    · rw [if_pos ha] at hfind
      injection hfind with h1
      subst h1
      simp [liveHandleCount, hlive]
    · rw [if_neg ha] at hfind
      have := ih hfind
      simp only [liveHandleCount]
      omega

theorem foldl_preserve {α β : Type} (P : α → Prop) (f : α → β → α)
    (hf : ∀ a b, P a → P (f a b)) :
    ∀ (l : List β) (a : α), P a → P (l.foldl f a) := by
  intro l
  induction l with
  | nil => intro a ha; exact ha
  | cons b bs ih =>
    intro a ha
    exact ih _ (hf a b ha)

theorem evict_eta (r : Record) (he : r.state = .EVICTED) :
    evictF r = r := by
  unfold evictF
  cases r
  cases he
  rfl

theorem removeIfIdle_ok_inv (m : Manager) (i : Nat) (now t : Int) (m' : Manager) (rec : Record)
    (h : removeIfIdle m i now t = .ok (m', rec)) :
    ∃ r, findRec m.store i = some r ∧ r.state = .ACTIVE ∧ r.refCount = 0 ∧
      t ≤ now - r.lastTouchedAt ∧
      m' = { m with store := updateById m.store i evictF,
                    released := m.released ++ [r.resourceHandle] } ∧
      rec = evictF r := by
  unfold removeIfIdle at h
  split at h
  · rename_i r hf
    split at h
    · rename_i hc
      injection h with h1
      injection h1 with hA hB
      exact ⟨r, hf, hc.1, hc.2.1, hc.2.2, hA.symm, hB.symm⟩
    · exact absurd h (by simp)
  · exact absurd h (by simp)

/- ## Preservation of the handle-accounting invariant -/

theorem handleInv_point (m : Manager) (i : Nat) (f : Record → Record) (r : Record)
    (hfind : findRec m.store i = some r)
    (hh : (f r).resourceHandle = r.resourceHandle)
    (hs : (f r).state = .EVICTED ↔ r.state = .EVICTED)
    (hinv : HandleInv m) : HandleInv { m with store := updateById m.store i f } := by
  intro h
  show countNat m.released h + liveHandleCount (updateById m.store i f) h =
    if h < m.nextHandle then 1 else 0
  rw [liveHandleCount_updateById_keep m.store i f r hfind hh hs h]
  exact hinv h

theorem handleInv_evict (m : Manager) (i : Nat) (r : Record)
    (hfind : findRec m.store i = some r) (hlive : r.state ≠ .EVICTED)
    (hinv : HandleInv m) :
    HandleInv { m with store := updateById m.store i evictF,
                       released := m.released ++ [r.resourceHandle] } := by
  intro h
  show countNat (m.released ++ [r.resourceHandle]) h +
      liveHandleCount (updateById m.store i evictF) h =
    if h < m.nextHandle then 1 else 0
  rw [countNat_append]
  have he := liveHandleCount_updateById_evict m.store i r hfind hlive h
  have hi := hinv h
  simp only [countNat] at *
  split_ifs at * <;> omega

theorem handleInv_create (m : Manager) (aok cok : Bool) (now : Int)
    (hinv : HandleInv m) : HandleInv (create m aok cok now).1 := by
  unfold create
  split
  · exact hinv
  · split
    · exact hinv
    · split
      · intro h
        show countNat (m.released ++ [m.nextHandle]) h + liveHandleCount m.store h =
          if h < m.nextHandle + 1 then 1 else 0
        rw [countNat_append]
        have hi := hinv h
        simp only [countNat] at *
        split_ifs at * <;> omega
      · intro h
        show countNat m.released h +
            liveHandleCount (m.store ++ [⟨m.nextId, now, now, m.nextHandle, 0, .ACTIVE⟩]) h =
          if h < m.nextHandle + 1 then 1 else 0
        rw [liveHandleCount_append_one]
        have hi := hinv h
        simp only [ne_eq, reduceCtorEq, not_false_iff, true_and]
        split_ifs at * <;> omega

theorem handleInv_shutdown (m : Manager) (hinv : HandleInv m) : HandleInv (shutdown m) := by
  intro h
  show countNat (m.released ++ liveHandles m.store) h +
      liveHandleCount (m.store.map evictF) h =
    if h < m.nextHandle then 1 else 0
  rw [countNat_append, countNat_liveHandles, liveHandleCount_map_evict]
  simpa using hinv h

theorem handleInv_sweepOne (m : Manager) (now : Int) (i : Nat)
    (hinv : HandleInv m) : HandleInv (sweepOne m now i) := by
  unfold sweepOne
  split
  · rename_i m' rec hok
    obtain ⟨r, hfind, hact, _, _, hm', _⟩ :=
      removeIfIdle_ok_inv m i now m.idleTimeout m' rec hok
    subst hm'
    exact handleInv_evict m i r hfind (by simp [hact]) hinv
  · split
    · rename_i r hfind
      split
      · rename_i hdr
        exact handleInv_evict m i r hfind (by simp [hdr.1]) hinv
      · exact hinv
    · exact hinv

theorem handleInv_applyOp (m : Manager) (op : Op) (hinv : HandleInv m) :
    HandleInv (applyOp m op) := by
  cases op with
  | touchOp i now =>
    simp only [applyOp]
    split
    · rename_i m' hok
      unfold touch at hok
      split at hok
      · rename_i r hfind
        split at hok
        · injection hok with h1
          subst h1
          exact handleInv_point m i _ r hfind rfl Iff.rfl hinv
        · exact absurd hok (by simp)
      · exact absurd hok (by simp)
    · exact hinv
  | lookupOp i => exact hinv
  | invStartOp i now =>
    simp only [applyOp]
    split
    · rename_i m' hok
      unfold onInvocationStart at hok
      split at hok
      · rename_i r hfind
        split at hok
        · injection hok with h1
          subst h1
          exact handleInv_point m i _ r hfind rfl Iff.rfl hinv
        · exact absurd hok (by simp)
      · exact absurd hok (by simp)
    · exact hinv
  | invEndOp i =>
    simp only [applyOp]
    unfold onInvocationEnd
    split
    · rename_i r hfind
      split
      · exact handleInv_point m i _ r hfind rfl Iff.rfl hinv
      · exact hinv
    · exact hinv
  | destroyOp i =>
    simp only [applyOp]
    unfold onExplicitDestroy
    split
    · rename_i r hfind
      split
      · rename_i hact
        split
        · exact handleInv_evict m i r hfind (by simp [hact]) hinv
        · exact handleInv_point m i _ r hfind rfl (by simp [drainF, hact]) hinv
      · exact hinv
    · exact hinv
  | removeIfIdleOp i now t =>
    simp only [applyOp]
    split
    · rename_i m' rec hok
      obtain ⟨r, hfind, hact, _, _, hm', _⟩ := removeIfIdle_ok_inv m i now t m' rec hok
      subst hm'
      exact handleInv_evict m i r hfind (by simp [hact]) hinv
    · exact hinv
  | sweepOp now =>
    simp only [applyOp]
    exact foldl_preserve HandleInv _ (fun a b ha => handleInv_sweepOne a now b ha)
      (snapshotIds m.store) m hinv
  | createOp aok cok now =>
    simp only [applyOp]
    exact handleInv_create m aok cok now hinv
  | shutdownOp =>
    simp only [applyOp]
    exact handleInv_shutdown m hinv

theorem handleInv_init (t s : Int) (k : Nat) (p : Bool) : HandleInv (initManager t s k p) := by
  intro h
  simp [initManager, countNat, liveHandleCount]

theorem handleInv_reachable (m : Manager) (hm : Reachable m) : HandleInv m := by
  induction hm with
  | init t s k p => exact handleInv_init t s k p
  | step m op hm ih => exact handleInv_applyOp m op ih

/- ## Store-shape transfer lemmas -/

theorem pinned_of_store_eq (m m' : Manager) (i h : Nat)
    (hstore : m'.store = m.store) (hp : PinnedWith m i h) : PinnedWith m' i h := by
  obtain ⟨r, hfind, hlive, hrc, hrh⟩ := hp
  exact ⟨r, by rw [hstore]; exact hfind, hlive, hrc, hrh⟩

theorem pinned_of_store_update_ne (m m' : Manager) (j : Nat) (f : Record → Record)
    (hstore : m'.store = updateById m.store j f)
    (hid : ∀ t, (f t).id = t.id) (i h : Nat) (hij : i ≠ j)
    (hp : PinnedWith m i h) : PinnedWith m' i h := by
  obtain ⟨r, hfind, hlive, hrc, hrh⟩ := hp
  refine ⟨r, ?_, hlive, hrc, hrh⟩
  rw [hstore, findRec_updateById_ne m.store j i f hid hij]
  exact hfind

theorem pinned_of_store_update_self (m m' : Manager) (i h : Nat) (f : Record → Record)
    (r : Record) (hstore : m'.store = updateById m.store i f)
    (hfind : findRec m.store i = some r) (hid : ∀ t, (f t).id = t.id)
    (hstate : (f r).state ≠ .EVICTED) (hrc : 1 ≤ (f r).refCount)
    (hh : (f r).resourceHandle = h) : PinnedWith m' i h := by
  refine ⟨f r, ?_, hstate, hrc, hh⟩
  rw [hstore, findRec_updateById_self m.store i f hid, hfind]
  rfl

theorem pinned_of_store_append (m m' : Manager) (i h : Nat) (l : List Record)
    (hstore : m'.store = m.store ++ l) (hp : PinnedWith m i h) : PinnedWith m' i h := by
  obtain ⟨r, hfind, hlive, hrc, hrh⟩ := hp
  refine ⟨r, ?_, hlive, hrc, hrh⟩
  rw [hstore]
  exact findRec_append_some m.store l i r hfind

theorem retired_of_store_eq (m m' : Manager) (i : Nat)
    (hstore : m'.store = m.store) (hp : Retired m i) : Retired m' i := by
  obtain ⟨r, hfind, hact⟩ := hp
  exact ⟨r, by rw [hstore]; exact hfind, hact⟩

theorem retired_of_store_update_ne (m m' : Manager) (j : Nat) (f : Record → Record)
    (hstore : m'.store = updateById m.store j f)
    (hid : ∀ t, (f t).id = t.id) (i : Nat) (hij : i ≠ j)
    (hp : Retired m i) : Retired m' i := by
  obtain ⟨r, hfind, hact⟩ := hp
  refine ⟨r, ?_, hact⟩
  rw [hstore, findRec_updateById_ne m.store j i f hid hij]
  exact hfind

theorem retired_of_store_update_self (m m' : Manager) (i : Nat) (f : Record → Record)
    (r : Record) (hstore : m'.store = updateById m.store i f)
    (hfind : findRec m.store i = some r) (hid : ∀ t, (f t).id = t.id)
    (hstate : (f r).state ≠ .ACTIVE) : Retired m' i := by
  refine ⟨f r, ?_, hstate⟩
  rw [hstore, findRec_updateById_self m.store i f hid, hfind]
  rfl

theorem retired_of_store_append (m m' : Manager) (i : Nat) (l : List Record)
    (hstore : m'.store = m.store ++ l) (hp : Retired m i) : Retired m' i := by
  obtain ⟨r, hfind, hact⟩ := hp
  refine ⟨r, ?_, hact⟩
  rw [hstore]
  exact findRec_append_some m.store l i r hfind

theorem frozen_of_store_eq (m m' : Manager) (i : Nat) (r : Record)
    (hstore : m'.store = m.store) (hp : FrozenAt m i r) : FrozenAt m' i r := by
  unfold FrozenAt at *
  rw [hstore]
  exact hp

theorem frozen_of_store_update_ne (m m' : Manager) (j : Nat) (f : Record → Record)
    (hstore : m'.store = updateById m.store j f)
    (hid : ∀ t, (f t).id = t.id) (i : Nat) (r : Record) (hij : i ≠ j)
    (hp : FrozenAt m i r) : FrozenAt m' i r := by
  unfold FrozenAt at *
  rw [hstore, findRec_updateById_ne m.store j i f hid hij]
  exact hp

theorem frozen_of_store_append (m m' : Manager) (i : Nat) (r : Record) (l : List Record)
    (hstore : m'.store = m.store ++ l) (hp : FrozenAt m i r) : FrozenAt m' i r := by
  unfold FrozenAt at *
  rw [hstore]
  exact findRec_append_some m.store l i r hp

/- ## Per-operation preservation of PinnedWith -/

theorem pinnedWith_sweepOne (m : Manager) (now : Int) (j i h : Nat)
    (hp : PinnedWith m i h) : PinnedWith (sweepOne m now j) i h := by
  unfold sweepOne
  split
  · rename_i m' rec hok
    obtain ⟨r', hfind', hact', hrc', _, hm', _⟩ :=
      removeIfIdle_ok_inv m j now m.idleTimeout m' rec hok
    subst hm'
    by_cases hij : i = j
    · subst hij
      obtain ⟨r, hfind, hlive, hrc, hrh⟩ := hp
      rw [hfind] at hfind'
      injection hfind' with he
      subst he
      omega
    · exact pinned_of_store_update_ne m _ j evictF rfl (fun t => rfl) i h hij hp
  · split
    · rename_i r' hfind'
      split
      · rename_i hdr
        by_cases hij : i = j
        · subst hij
          obtain ⟨r, hfind, hlive, hrc, hrh⟩ := hp
          rw [hfind] at hfind'
          injection hfind' with he
          subst he
          obtain ⟨hd1, hd2⟩ := hdr
          omega
        · exact pinned_of_store_update_ne m _ j evictF rfl (fun t => rfl) i h hij hp
      · exact hp
    · exact hp

theorem pinnedWith_applyOp (m : Manager) (i h : Nat) (op : Op)
    (hp : PinnedWith m i h) (hop : NonReleasing op i) :
    PinnedWith (applyOp m op) i h := by
  cases op with
  | touchOp j now =>
    simp only [applyOp]
    split
    · rename_i m' hok
      unfold touch at hok
      split at hok
      · rename_i r' hfind'
        split at hok
        · rename_i hact'
          injection hok with h1
          subst h1
          by_cases hij : i = j
          · subst hij
            obtain ⟨r, hfind, hlive, hrc, hrh⟩ := hp
            rw [hfind] at hfind'
            injection hfind' with he
            subst he
            exact pinned_of_store_update_self m _ i h (touchF now) r rfl hfind
              (fun t => rfl) hlive hrc hrh
          · exact pinned_of_store_update_ne m _ j (touchF now) rfl (fun t => rfl) i h hij hp
        · exact absurd hok (by simp)
      · exact absurd hok (by simp)
    · exact hp
  | lookupOp j => exact hp
  | invStartOp j now =>
    simp only [applyOp]
    split
    · rename_i m' hok
      unfold onInvocationStart at hok
      split at hok
      · rename_i r' hfind'
        split at hok
        · rename_i hact'
          injection hok with h1
          subst h1
          by_cases hij : i = j
          · subst hij
            obtain ⟨r, hfind, hlive, hrc, hrh⟩ := hp
            rw [hfind] at hfind'
            injection hfind' with he
            subst he
            exact pinned_of_store_update_self m _ i h (startF now) r rfl hfind
              (fun t => rfl) hlive (Nat.le_add_left 1 r.refCount) hrh
          · exact pinned_of_store_update_ne m _ j (startF now) rfl (fun t => rfl) i h hij hp
        · exact absurd hok (by simp)
      · exact absurd hok (by simp)
    · exact hp
  | invEndOp j =>
    have hji : j ≠ i := hop
    simp only [applyOp]
    unfold onInvocationEnd
    split
    · rename_i r' hfind'
      split
      · exact pinned_of_store_update_ne m _ j endF rfl (fun t => rfl) i h
          (fun hc => hji hc.symm) hp
      · exact hp
    · exact hp
  | destroyOp j =>
    simp only [applyOp]
    unfold onExplicitDestroy
    split
    · rename_i r' hfind'
      split
      · rename_i hact'
        split
        · rename_i hrc0
          by_cases hij : i = j
          · subst hij
            obtain ⟨r, hfind, hlive, hrc, hrh⟩ := hp
            rw [hfind] at hfind'
            injection hfind' with he
            subst he
            omega
          · exact pinned_of_store_update_ne m _ j evictF rfl (fun t => rfl) i h hij hp
        · by_cases hij : i = j
          · subst hij
            obtain ⟨r, hfind, hlive, hrc, hrh⟩ := hp
            rw [hfind] at hfind'
            injection hfind' with he
            subst he
            exact pinned_of_store_update_self m _ i h drainF r rfl hfind
              (fun t => rfl) (by simp [drainF]) hrc hrh
          · exact pinned_of_store_update_ne m _ j drainF rfl (fun t => rfl) i h hij hp
      · exact hp
    · exact hp
  | removeIfIdleOp j now t =>
    simp only [applyOp]
    split
    · rename_i m' rec hok
      obtain ⟨r', hfind', hact', hrc', _, hm', _⟩ := removeIfIdle_ok_inv m j now t m' rec hok
      subst hm'
      by_cases hij : i = j
      · subst hij
        obtain ⟨r, hfind, hlive, hrc, hrh⟩ := hp
        rw [hfind] at hfind'
        injection hfind' with he
        subst he
        omega
      · exact pinned_of_store_update_ne m _ j evictF rfl (fun t => rfl) i h hij hp
    · exact hp
  | sweepOp now =>
    simp only [applyOp]
    exact foldl_preserve (fun a => PinnedWith a i h) _
      (fun a b ha => pinnedWith_sweepOne a now b i h ha) (snapshotIds m.store) m hp
  | createOp aok cok now =>
    simp only [applyOp]
    unfold create
    split
    · exact hp
    · split
      · exact hp
      · split
        · exact pinned_of_store_eq m _ i h rfl hp
        · exact pinned_of_store_append m _ i h _ rfl hp
  | shutdownOp => exact hop.elim

theorem pinnedWith_applyOps (m : Manager) (i h : Nat) (ops : List Op)
    (hops : ∀ op ∈ ops, NonReleasing op i) (hp : PinnedWith m i h) :
    PinnedWith (applyOps m ops) i h := by
  induction ops generalizing m with
  | nil => exact hp
  | cons op rest ih =>
    exact ih (applyOp m op) (fun o ho => hops o (List.mem_cons_of_mem op ho))
      (pinnedWith_applyOp m i h op hp (hops op (List.mem_cons_self op rest)))

theorem handleInv_applyOps (m : Manager) (ops : List Op) (hinv : HandleInv m) :
    HandleInv (applyOps m ops) :=
  foldl_preserve HandleInv applyOp handleInv_applyOp ops m hinv

/- ## Per-operation preservation of Retired and FrozenAt -/

theorem retired_of_store_map_evict (m m' : Manager)
    (hstore : m'.store = m.store.map evictF) (i : Nat)
    (hp : Retired m i) : Retired m' i := by
  obtain ⟨r, hfind, hact⟩ := hp
  refine ⟨evictF r, ?_, by simp [evictF]⟩
  rw [hstore, findRec_map m.store i evictF (fun t => rfl), hfind]
  rfl

theorem retired_sweepOne (m : Manager) (now : Int) (j i : Nat)
    (hp : Retired m i) : Retired (sweepOne m now j) i := by
  unfold sweepOne
  split
  · rename_i m' rec hok
    obtain ⟨r', hfind', hact', _, _, hm', _⟩ :=
      removeIfIdle_ok_inv m j now m.idleTimeout m' rec hok
    subst hm'
    by_cases hij : i = j
    · subst hij
      obtain ⟨r, hfind, hact⟩ := hp
      rw [hfind] at hfind'
      injection hfind' with he
      subst he
      exact absurd hact' hact
    · exact retired_of_store_update_ne m _ j evictF rfl (fun t => rfl) i hij hp
  · split
    · rename_i r' hfind'
      split
      · rename_i hdr
        by_cases hij : i = j
        · subst hij
          obtain ⟨r, hfind, hact⟩ := hp
          rw [hfind] at hfind'
          injection hfind' with he
          subst he
          exact retired_of_store_update_self m _ i evictF r rfl hfind (fun t => rfl)
            (by simp [evictF])
        · exact retired_of_store_update_ne m _ j evictF rfl (fun t => rfl) i hij hp
      · exact hp
    · exact hp

theorem retired_applyOp (m : Manager) (i : Nat) (op : Op)
    (hp : Retired m i) : Retired (applyOp m op) i := by
  cases op with
  | touchOp j now =>
    simp only [applyOp]
    split
    · rename_i m' hok
      unfold touch at hok
      split at hok
      · rename_i r' hfind'
        split at hok
        · rename_i hact'
          injection hok with h1
          subst h1
          by_cases hij : i = j
          · subst hij
            obtain ⟨r, hfind, hact⟩ := hp
            rw [hfind] at hfind'
            injection hfind' with he
            subst he
            exact absurd hact' hact
          · exact retired_of_store_update_ne m _ j (touchF now) rfl (fun t => rfl) i hij hp
        · exact absurd hok (by simp)
      · exact absurd hok (by simp)
    · exact hp
  | lookupOp j => exact hp
  | invStartOp j now =>
    simp only [applyOp]
    split
    · rename_i m' hok
      unfold onInvocationStart at hok
      split at hok
      · rename_i r' hfind'
        split at hok
        · rename_i hact'
          injection hok with h1
          subst h1
          by_cases hij : i = j
          · subst hij
            obtain ⟨r, hfind, hact⟩ := hp
            rw [hfind] at hfind'
            injection hfind' with he
            subst he
            exact absurd hact' hact
          · exact retired_of_store_update_ne m _ j (startF now) rfl (fun t => rfl) i hij hp
        · exact absurd hok (by simp)
      · exact absurd hok (by simp)
    · exact hp
  | invEndOp j =>
    simp only [applyOp]
    unfold onInvocationEnd
    split
    · rename_i r' hfind'
      split
      · by_cases hij : i = j
        · subst hij
          obtain ⟨r, hfind, hact⟩ := hp
          rw [hfind] at hfind'
          injection hfind' with he
          subst he
          exact retired_of_store_update_self m _ i endF r rfl hfind (fun t => rfl) hact
        · exact retired_of_store_update_ne m _ j endF rfl (fun t => rfl) i hij hp
      · exact hp
    · exact hp
  | destroyOp j =>
    simp only [applyOp]
    unfold onExplicitDestroy
    split
    · rename_i r' hfind'
      split
      · rename_i hact'
        split
        · by_cases hij : i = j
          · subst hij
            obtain ⟨r, hfind, hact⟩ := hp
            rw [hfind] at hfind'
            injection hfind' with he
            subst he
            exact absurd hact' hact
          · exact retired_of_store_update_ne m _ j evictF rfl (fun t => rfl) i hij hp
        · by_cases hij : i = j
          · subst hij
            obtain ⟨r, hfind, hact⟩ := hp
            rw [hfind] at hfind'
            injection hfind' with he
            subst he
            exact absurd hact' hact
          · exact retired_of_store_update_ne m _ j drainF rfl (fun t => rfl) i hij hp
      · exact hp
    · exact hp
  | removeIfIdleOp j now t =>
    simp only [applyOp]
    split
    · rename_i m' rec hok
      obtain ⟨r', hfind', hact', _, _, hm', _⟩ := removeIfIdle_ok_inv m j now t m' rec hok
      subst hm'
      by_cases hij : i = j
      · subst hij
        obtain ⟨r, hfind, hact⟩ := hp
        rw [hfind] at hfind'
        injection hfind' with he
        subst he
        exact absurd hact' hact
      · exact retired_of_store_update_ne m _ j evictF rfl (fun t => rfl) i hij hp
    · exact hp
  | sweepOp now =>
    simp only [applyOp]
    exact foldl_preserve (fun a => Retired a i) _
      (fun a b ha => retired_sweepOne a now b i ha) (snapshotIds m.store) m hp
  | createOp aok cok now =>
    simp only [applyOp]
    unfold create
    split
    · exact hp
    · split
      · exact hp
      · split
        · exact retired_of_store_eq m _ i rfl hp
        · exact retired_of_store_append m _ i _ rfl hp
  | shutdownOp =>
    simp only [applyOp]
    exact retired_of_store_map_evict m _ rfl i hp

theorem retired_applyOps (m : Manager) (i : Nat) (ops : List Op)
    (hp : Retired m i) : Retired (applyOps m ops) i :=
  foldl_preserve (fun a => Retired a i) applyOp (fun a b ha => retired_applyOp a i b ha)
    ops m hp

theorem touch_retired (m : Manager) (i : Nat) (now : Int)
    (hp : Retired m i) : touch m i now = .error .NotFound := by
  obtain ⟨r, hfind, hact⟩ := hp
  unfold touch
  split
  · rename_i r' hfind'
    rw [hfind] at hfind'
    injection hfind' with he
    subst he
    rw [if_neg hact]
  · rfl

theorem lookup_evicted (m : Manager) (i : Nat) (r : Record)
    (hfind : findRec m.store i = some r) (he : r.state = .EVICTED) :
    lookup m i = .error .NotFound := by
  unfold lookup
  split
  · rename_i r' hfind'
    rw [hfind] at hfind'
    injection hfind' with hee
    subst hee
    rw [if_pos he]
  · rfl

theorem frozen_sweepOne (m : Manager) (now : Int) (j i : Nat) (r : Record)
    (hp : FrozenAt m i r) (he : r.state = .EVICTED) :
    FrozenAt (sweepOne m now j) i r := by
  unfold sweepOne
  split
  · rename_i m' rec hok
    obtain ⟨r', hfind', hact', _, _, hm', _⟩ :=
      removeIfIdle_ok_inv m j now m.idleTimeout m' rec hok
    subst hm'
    by_cases hij : i = j
    · subst hij
      unfold FrozenAt at hp
      rw [hp] at hfind'
      injection hfind' with hee
      subst hee
      rw [he] at hact'
      exact absurd hact' (by simp)
    · exact frozen_of_store_update_ne m _ j evictF rfl (fun t => rfl) i r hij hp
  · split
    · rename_i r' hfind'
      split
      · rename_i hdr
        by_cases hij : i = j
        · subst hij
          unfold FrozenAt at hp
          rw [hp] at hfind'
          injection hfind' with hee
          subst hee
          obtain ⟨hd1, _⟩ := hdr
          rw [he] at hd1
          exact absurd hd1 (by simp)
        · exact frozen_of_store_update_ne m _ j evictF rfl (fun t => rfl) i r hij hp
      · exact hp
    · exact hp

theorem frozen_applyOp (m : Manager) (i : Nat) (r : Record) (op : Op)
    (hp : FrozenAt m i r) (he : r.state = .EVICTED) :
    FrozenAt (applyOp m op) i r := by
  cases op with
  | touchOp j now =>
    simp only [applyOp]
    split
    · rename_i m' hok
      unfold touch at hok
      split at hok
      · rename_i r' hfind'
        split at hok
        · rename_i hact'
          injection hok with h1
          subst h1
          by_cases hij : i = j
          · subst hij
            unfold FrozenAt at hp
            rw [hp] at hfind'
            injection hfind' with hee
            subst hee
            rw [he] at hact'
            exact absurd hact' (by simp)
          · exact frozen_of_store_update_ne m _ j (touchF now) rfl (fun t => rfl) i r hij hp
        · exact absurd hok (by simp)
      · exact absurd hok (by simp)
    · exact hp
  | lookupOp j => exact hp
  | invStartOp j now =>
    simp only [applyOp]
    split
    · rename_i m' hok
      unfold onInvocationStart at hok
      split at hok
      · rename_i r' hfind'
        split at hok
        · rename_i hact'
          injection hok with h1
          subst h1
          by_cases hij : i = j
          · subst hij
            unfold FrozenAt at hp
            rw [hp] at hfind'
            injection hfind' with hee
            subst hee
            rw [he] at hact'
            exact absurd hact' (by simp)
          · exact frozen_of_store_update_ne m _ j (startF now) rfl (fun t => rfl) i r hij hp
        · exact absurd hok (by simp)
      · exact absurd hok (by simp)
    · exact hp
  | invEndOp j =>
    simp only [applyOp]
    unfold onInvocationEnd
    split
    · rename_i r' hfind'
      split
      · rename_i hc
        by_cases hij : i = j
        · subst hij
          unfold FrozenAt at hp
          rw [hp] at hfind'
          injection hfind' with hee
          subst hee
          exact absurd he hc.1
        · exact frozen_of_store_update_ne m _ j endF rfl (fun t => rfl) i r hij hp
      · exact hp
    · exact hp
  | destroyOp j =>
    simp only [applyOp]
    unfold onExplicitDestroy
    split
    · rename_i r' hfind'
      split
      · rename_i hact'
        split
        · by_cases hij : i = j
          · subst hij
            unfold FrozenAt at hp
            rw [hp] at hfind'
            injection hfind' with hee
            subst hee
            rw [he] at hact'
            exact absurd hact' (by simp)
          · exact frozen_of_store_update_ne m _ j evictF rfl (fun t => rfl) i r hij hp
        · by_cases hij : i = j
          · subst hij
            unfold FrozenAt at hp
            rw [hp] at hfind'
            injection hfind' with hee
            subst hee
            rw [he] at hact'
            exact absurd hact' (by simp)
          · exact frozen_of_store_update_ne m _ j drainF rfl (fun t => rfl) i r hij hp
      · exact hp
    · exact hp
  | removeIfIdleOp j now t =>
    simp only [applyOp]
    split
    · rename_i m' rec hok
      obtain ⟨r', hfind', hact', _, _, hm', _⟩ := removeIfIdle_ok_inv m j now t m' rec hok
      subst hm'
      by_cases hij : i = j
      · subst hij
        unfold FrozenAt at hp
        rw [hp] at hfind'
        injection hfind' with hee
        subst hee
        rw [he] at hact'
        exact absurd hact' (by simp)
      · exact frozen_of_store_update_ne m _ j evictF rfl (fun t => rfl) i r hij hp
    · exact hp
  | sweepOp now =>
    simp only [applyOp]
    exact foldl_preserve (fun a => FrozenAt a i r) _
      (fun a b ha => frozen_sweepOne a now b i r ha he) (snapshotIds m.store) m hp
  | createOp aok cok now =>
    simp only [applyOp]
    unfold create
    split
    · exact hp
    · split
      · exact hp
      · split
        · exact frozen_of_store_eq m _ i r rfl hp
        · exact frozen_of_store_append m _ i r _ rfl hp
  | shutdownOp =>
    simp only [applyOp]
    unfold FrozenAt at *
    show findRec (m.store.map evictF) i = some r
    rw [findRec_map m.store i evictF (fun t => rfl), hp]
    simp [evict_eta r he]

theorem frozen_applyOps (m : Manager) (i : Nat) (r : Record) (ops : List Op)
    (hp : FrozenAt m i r) (he : r.state = .EVICTED) :
    FrozenAt (applyOps m ops) i r :=
  foldl_preserve (fun a => FrozenAt a i r) applyOp
    (fun a b ha => frozen_applyOp a i r b ha he) ops m hp

/- ## The state after a run of successful creates -/

theorem liveRecordCount_all_live (l : List Record) (hl : ∀ r ∈ l, r.state ≠ .EVICTED) :
    liveRecordCount l = l.length := by
  induction l with
  | nil => rfl
  | cons a as ih =>
    have ha := hl a (List.mem_cons_self a as)
    simp only [liveRecordCount, List.length_cons]
    rw [if_neg ha, ih (fun r hr => hl r (List.mem_cons_of_mem a hr))]
    omega

theorem mkRec_live (n : Nat) (now : Int) (r : Record)
    (hr : r ∈ (List.range n).map (fun j => mkRec j now)) : r.state ≠ .EVICTED := by
  obtain ⟨j, hj, hrj⟩ := List.mem_map.mp hr
  rw [← hrj]
  simp [mkRec]

theorem iterCreate_initManager (t s : Int) (k : Nat) (p : Bool) (now : Int) (n : Nat)
    (hn : n ≤ k) :
    iterCreate (initManager t s k p) now n =
      { store := (List.range n).map (fun j => mkRec j now), nextId := n, nextHandle := n,
        released := [], idleTimeout := t, sweepInterval := s, maxConcurrent := k,
        persistent := p } := by
  induction n with
  | zero => simp [iterCreate, initManager]
  | succ n ih =>
    have hnk : n ≤ k := Nat.le_of_succ_le hn
    show (create (iterCreate (initManager t s k p) now n) true true now).1 = _
    rw [ih hnk]
    unfold create
    have hlive : liveRecordCount ((List.range n).map (fun j => mkRec j now)) = n := by
      rw [liveRecordCount_all_live _ (mkRec_live n now)]
      simp
    have hcond : ¬(k ≠ 0 ∧ k ≤ liveRecordCount ((List.range n).map (fun j => mkRec j now))) := by
      rw [hlive]
      omega
    rw [if_neg hcond]
    simp only [Bool.true_eq_false, if_false]
    simp [List.range_succ, mkRec]

/- ## Claim theorems -/

/-- Claim C1: `removeIfIdle(id, now, timeout)` checks exactly
`state == ACTIVE && refCount == 0 && now - lastTouchedAt >= timeout`; when the
condition holds it transitions the record to EVICTED, releases its resource
handle, and returns the evicted record; otherwise it returns `NotEligible`
and produces no new state, leaving the record unchanged.  The timing
condition is equivalent to `lastTouchedAt + timeout ≤ now`: a record touched
at time T is eligible exactly from `T + timeout` on, once `refCount = 0`. -/
theorem C1_removeIfIdle_spec (m : Manager) (i : Nat) (now timeout : Int) (r : Record)
    (hfind : findRec m.store i = some r) :
    (r.state = .ACTIVE ∧ r.refCount = 0 ∧ timeout ≤ now - r.lastTouchedAt →
      removeIfIdle m i now timeout =
        .ok ({ m with store := updateById m.store i evictF,
                      released := m.released ++ [r.resourceHandle] }, evictF r))
    ∧ (¬(r.state = .ACTIVE ∧ r.refCount = 0 ∧ timeout ≤ now - r.lastTouchedAt) →
      removeIfIdle m i now timeout = .error .NotEligible)
    ∧ (timeout ≤ now - r.lastTouchedAt ↔ r.lastTouchedAt + timeout ≤ now) := by
  refine ⟨?_, ?_, by omega⟩
  · intro hc
    unfold removeIfIdle
    split
    · rename_i r' hfind'
      rw [hfind] at hfind'
      injection hfind' with he
      subst he
      rw [if_pos hc]
    · rename_i hnone
      rw [hfind] at hnone
      exact absurd hnone (by simp)
  · intro hc
    unfold removeIfIdle
    split
    · rename_i r' hfind'
      rw [hfind] at hfind'
      injection hfind' with he
      subst he
      rw [if_neg hc]
    · rfl

/-- Witness for C1: a concrete idle ACTIVE record (touched at 0, refCount 0)
is evicted by `removeIfIdle` at time 100 with timeout 60. -/
theorem C1_removeIfIdle_spec_witness :
    removeIfIdle ⟨[⟨5, 0, 0, 2, 0, .ACTIVE⟩], 6, 3, [], 60, 60, 0, false⟩ 5 100 60 =
      .ok (⟨[⟨5, 0, 0, 2, 0, .EVICTED⟩], 6, 3, [2], 60, 60, 0, false⟩,
           ⟨5, 0, 0, 2, 0, .EVICTED⟩) :=
  (C1_removeIfIdle_spec ⟨[⟨5, 0, 0, 2, 0, .ACTIVE⟩], 6, 3, [], 60, 60, 0, false⟩
    5 100 60 ⟨5, 0, 0, 2, 0, .ACTIVE⟩ rfl).1 ⟨rfl, rfl, by decide⟩

/-- Helper: a pinned (live, in the store) record's handle has never been
released, under the handle-accounting invariant. -/
theorem pinned_count_zero (m : Manager) (i : Nat) (r : Record)
    (hinv : HandleInv m) (hfind : findRec m.store i = some r)
    (hlive : r.state ≠ .EVICTED) :
    countNat m.released r.resourceHandle = 0 := by
  have h1 := findRec_some_live_handle m.store i r hfind hlive
  have h2 := hinv r.resourceHandle
  split_ifs at h2 <;> omega

/-- Claim C2: once `onInvocationStart(id)` has returned successfully and the
matching `onInvocationEnd` has not yet been called, every interleaving of
further operations (touches, lookups, invocation starts, other ids'
invocation ends, explicit destroys, sweep cycles, removeIfIdle calls,
creates) leaves the record pinned — present, not evicted, `refCount ≥ 1` —
and its resource handle is never handed back to the resource provider during
that window, even if the idle time exceeds any timeout. -/
theorem C2_refCount_gates_sweep (m0 m : Manager) (i : Nat) (now : Int) (ops : List Op)
    (hinv : HandleInv m0)
    (hstart : onInvocationStart m0 i now = .ok m)
    (hops : ∀ op ∈ ops, NonReleasing op i) :
    pinnedB (applyOps m ops) i = true ∧ releasedCountOf (applyOps m ops) i = 0 := by
  have hstep : applyOp m0 (.invStartOp i now) = m := by
    simp only [applyOp]
    rw [hstart]
  have hminv : HandleInv m := by
    rw [← hstep]
    exact handleInv_applyOp m0 (.invStartOp i now) hinv
  have hp : ∃ h, PinnedWith m i h := by
    unfold onInvocationStart at hstart
    split at hstart
    · rename_i r0 hfind0
      split at hstart
      · rename_i hact0
        injection hstart with h1
        subst h1
        refine ⟨r0.resourceHandle, startF now r0, ?_, by simp [startF, hact0],
          Nat.le_add_left 1 r0.refCount, rfl⟩
        show findRec (updateById m0.store i (startF now)) i = some (startF now r0)
        rw [findRec_updateById_self m0.store i (startF now) (fun t => rfl), hfind0]
        rfl
      · exact absurd hstart (by simp)
    · exact absurd hstart (by simp)
  obtain ⟨h, hp⟩ := hp
  have hp' := pinnedWith_applyOps m i h ops hops hp
  have hinv' := handleInv_applyOps m ops hminv
  obtain ⟨r, hfind, hlive, hrc, hrh⟩ := hp'
  constructor
  · unfold pinnedB
    rw [hfind]
    simp [hlive, hrc]
  · unfold releasedCountOf
    rw [hfind]
    exact pinned_count_zero (applyOps m ops) i r hinv' hfind hlive

/-- Witness for C2: one ACTIVE record, an invocation starts at time 0, then a
sweep cycle runs at time 1000, far past the 60-tick timeout; the record stays
pinned and its handle is not released. -/
theorem C2_refCount_gates_sweep_witness :
    pinnedB (applyOps ⟨[⟨1, 0, 0, 0, 1, .ACTIVE⟩], 2, 1, [], 60, 60, 0, false⟩
      [.sweepOp 1000]) 1 = true
    ∧ releasedCountOf (applyOps ⟨[⟨1, 0, 0, 0, 1, .ACTIVE⟩], 2, 1, [], 60, 60, 0, false⟩
      [.sweepOp 1000]) 1 = 0 :=
  C2_refCount_gates_sweep ⟨[⟨1, 0, 0, 0, 0, .ACTIVE⟩], 2, 1, [], 60, 60, 0, false⟩
    ⟨[⟨1, 0, 0, 0, 1, .ACTIVE⟩], 2, 1, [], 60, 60, 0, false⟩ 1 0 [.sweepOp 1000]
    (by intro h; cases h with | zero => rfl | succ n => rfl)
    rfl
    (by intro op hop; simp only [List.mem_singleton] at hop; subst hop; trivial)

/-- Claim C3: once a record is EVICTED it is frozen: after any further
operation sequence (touch, lookup, invocation hooks, explicit destroy,
sweeps, removeIfIdle, creates, shutdown) the record is still present and
unchanged — EVICTED is terminal — and both `touch` and `lookup` on its id
answer `NotFound`. -/
theorem C3_evicted_terminal (m : Manager) (i : Nat) (r : Record) (ops : List Op) (now : Int)
    (hfind : findRec m.store i = some r) (he : r.state = .EVICTED) :
    findRec (applyOps m ops).store i = some r
    ∧ touch (applyOps m ops) i now = .error .NotFound
    ∧ lookup (applyOps m ops) i = .error .NotFound := by
  have hf : FrozenAt (applyOps m ops) i r := frozen_applyOps m i r ops hfind he
  refine ⟨hf, ?_, lookup_evicted (applyOps m ops) i r hf he⟩
  exact touch_retired (applyOps m ops) i now ⟨r, hf, by simp [he]⟩

/-- Witness for C3: an evicted record survives a touch attempt, a sweep and a
destroy unchanged, and touch/lookup still answer NotFound. -/
theorem C3_evicted_terminal_witness :
    findRec (applyOps ⟨[⟨1, 0, 0, 0, 0, .EVICTED⟩], 2, 1, [0], 60, 60, 0, false⟩
        [.touchOp 1 5, .sweepOp 100, .destroyOp 1]).store 1 = some ⟨1, 0, 0, 0, 0, .EVICTED⟩
    ∧ touch (applyOps ⟨[⟨1, 0, 0, 0, 0, .EVICTED⟩], 2, 1, [0], 60, 60, 0, false⟩
        [.touchOp 1 5, .sweepOp 100, .destroyOp 1]) 1 7 = .error .NotFound
    ∧ lookup (applyOps ⟨[⟨1, 0, 0, 0, 0, .EVICTED⟩], 2, 1, [0], 60, 60, 0, false⟩
        [.touchOp 1 5, .sweepOp 100, .destroyOp 1]) 1 = .error .NotFound :=
  C3_evicted_terminal ⟨[⟨1, 0, 0, 0, 0, .EVICTED⟩], 2, 1, [0], 60, 60, 0, false⟩ 1
    ⟨1, 0, 0, 0, 0, .EVICTED⟩ [.touchOp 1 5, .sweepOp 100, .destroyOp 1] 7 rfl rfl

/-- Claim C4: from a fresh manager configured with capacity `k > 0`, a run of
`create` calls with no intervening evictions behaves as specified: each of
the first `k` calls succeeds (the n-th yields id n, so all ids are pairwise
distinct), the (k+1)-th call fails with `CapacityExceeded`, and after that
failing call the store still holds exactly `k` records. -/
theorem C4_capacity (t s : Int) (k : Nat) (p : Bool) (now : Int) (hk : 0 < k) :
    (∀ n, n < k →
      (create (iterCreate (initManager t s k p) now n) true true now).2 = .ok n)
    ∧ (∀ n n', n < k → n' < k → n ≠ n' →
      (create (iterCreate (initManager t s k p) now n) true true now).2 ≠
        (create (iterCreate (initManager t s k p) now n') true true now).2)
    ∧ (create (iterCreate (initManager t s k p) now k) true true now).2 =
        .error .CapacityExceeded
    ∧ liveRecordCount
        (create (iterCreate (initManager t s k p) now k) true true now).1.store = k := by
  have hsucc : ∀ n, n < k →
      (create (iterCreate (initManager t s k p) now n) true true now).2 = .ok n := by
    intro n hn
    rw [iterCreate_initManager t s k p now n (Nat.le_of_lt hn)]
    unfold create
    have hlive : liveRecordCount ((List.range n).map (fun j => mkRec j now)) = n := by
      rw [liveRecordCount_all_live _ (mkRec_live n now)]
      simp
    have hcond : ¬(k ≠ 0 ∧ k ≤ liveRecordCount ((List.range n).map (fun j => mkRec j now))) := by
      rw [hlive]
      omega
    rw [if_neg hcond]
    simp
  have hstate := iterCreate_initManager t s k p now k le_rfl
  have hklive : liveRecordCount ((List.range k).map (fun j => mkRec j now)) = k := by
    rw [liveRecordCount_all_live _ (mkRec_live k now)]
    simp
  have hkcond : k ≠ 0 ∧ k ≤ liveRecordCount ((List.range k).map (fun j => mkRec j now)) := by
    rw [hklive]
    omega
  refine ⟨hsucc, ?_, ?_, ?_⟩
  · intro n n' hn hn' hne
    rw [hsucc n hn, hsucc n' hn']
    simp [hne]
  · rw [hstate]
    unfold create
    rw [if_pos hkcond]
  · rw [hstate]
    unfold create
    rw [if_pos hkcond]
    show liveRecordCount ((List.range k).map (fun j => mkRec j now)) = k
    exact hklive

/-- Witness for C4 with capacity 1: the first create succeeds with id 0, the
second fails with CapacityExceeded, and the store still holds one record. -/
theorem C4_capacity_witness :
    (create (iterCreate (initManager 60 60 1 true) 0 0) true true 0).2 = .ok 0
    ∧ (create (iterCreate (initManager 60 60 1 true) 0 1) true true 0).2 =
        .error .CapacityExceeded
    ∧ liveRecordCount
        (create (iterCreate (initManager 60 60 1 true) 0 1) true true 0).1.store = 1 := by
  have h := C4_capacity 60 60 1 true 0 (by decide)
  exact ⟨h.1 0 (by decide), h.2.2.1, h.2.2.2⟩

/-- Claim C5: a `create` call that is not capacity-blocked but whose
construction fails — resource acquisition fails, or the domain object cannot
be built — propagates an error to the caller and leaves the lease store
exactly as it was: no partial record remains. -/
theorem C5_create_rolls_back (m : Manager) (now : Int) (aok cok : Bool)
    (hcap : ¬(m.maxConcurrent ≠ 0 ∧ m.maxConcurrent ≤ liveRecordCount m.store))
    (hfail : aok = false ∨ cok = false) :
    ((create m aok cok now).2 = .error .AcquireFailed
      ∨ (create m aok cok now).2 = .error .ConstructFailed)
    ∧ (create m aok cok now).1.store = m.store := by
  unfold create
  rw [if_neg hcap]
  rcases hfail with hf | hf
  · subst hf
    simp
  · subst hf
    cases aok with
    | false => simp
    | true => simp

/-- Witness for C5: on an unbounded fresh manager, a create whose resource
acquisition fails propagates the error and the store is unchanged. -/
theorem C5_create_rolls_back_witness :
    ((create (initManager 60 60 0 false) false true 5).2 = .error .AcquireFailed
      ∨ (create (initManager 60 60 0 false) false true 5).2 = .error .ConstructFailed)
    ∧ (create (initManager 60 60 0 false) false true 5).1.store =
        (initManager 60 60 0 false).store :=
  C5_create_rolls_back (initManager 60 60 0 false) 5 false true
    (fun hc => absurd rfl hc.1) (Or.inl rfl)

/-- Claim C6: `onExplicitDestroy(id)` on an ACTIVE record with `refCount = 0`
evicts it immediately — the check involves no idle time — and hands its
resource handle back; with `refCount > 0` it only marks the record DRAINING,
releases nothing, and after any further operation sequence every `touch` on
that id fails (`NotFound`, no new leases); a DRAINING record whose `refCount`
has returned to 0 is evicted by the next sweep visit, which releases its
handle exactly then. -/
theorem C6_explicit_destroy (m : Manager) (i : Nat) (r : Record)
    (hfind : findRec m.store i = some r) (hact : r.state = .ACTIVE) :
    (r.refCount = 0 →
      findRec (onExplicitDestroy m i).store i = some (evictF r)
      ∧ (onExplicitDestroy m i).released = m.released ++ [r.resourceHandle])
    ∧ (0 < r.refCount →
      findRec (onExplicitDestroy m i).store i = some (drainF r)
      ∧ (onExplicitDestroy m i).released = m.released
      ∧ ∀ (ops : List Op) (now' : Int),
          touch (applyOps (onExplicitDestroy m i) ops) i now' = .error .NotFound)
    ∧ (∀ (m' : Manager) (r' : Record) (now : Int),
        findRec m'.store i = some r' → r'.state = .DRAINING → r'.refCount = 0 →
      findRec (sweepOne m' now i).store i = some (evictF r')
      ∧ (sweepOne m' now i).released = m'.released ++ [r'.resourceHandle]) := by
  have hde0 : r.refCount = 0 →
      onExplicitDestroy m i =
        { m with store := updateById m.store i evictF,
                 released := m.released ++ [r.resourceHandle] } := by
    intro h0
    unfold onExplicitDestroy
    split
    · rename_i r' hfind'
      rw [hfind] at hfind'
      injection hfind' with he
      subst he
      rw [if_pos hact, if_pos h0]
    · rename_i hnone
      rw [hfind] at hnone
      exact absurd hnone (by simp)
  have hde1 : 0 < r.refCount →
      onExplicitDestroy m i = { m with store := updateById m.store i drainF } := by
    intro hpos
    unfold onExplicitDestroy
    split
    · rename_i r' hfind'
      rw [hfind] at hfind'
      injection hfind' with he
      subst he
      rw [if_pos hact, if_neg (by omega)]
    · rename_i hnone
      rw [hfind] at hnone
      exact absurd hnone (by simp)
  refine ⟨?_, ?_, ?_⟩
  · intro h0
    rw [hde0 h0]
    constructor
    · show findRec (updateById m.store i evictF) i = some (evictF r)
      rw [findRec_updateById_self m.store i evictF (fun t => rfl), hfind]
      rfl
    · rfl
  · intro hpos
    rw [hde1 hpos]
    have hfd : findRec (updateById m.store i drainF) i = some (drainF r) := by
      rw [findRec_updateById_self m.store i drainF (fun t => rfl), hfind]
      rfl
    refine ⟨hfd, rfl, ?_⟩
    intro ops now'
    have hret : Retired { m with store := updateById m.store i drainF } i :=
      ⟨drainF r, hfd, by simp [drainF]⟩
    exact touch_retired _ i now'
      (retired_applyOps { m with store := updateById m.store i drainF } i ops hret)
  · intro m' r' now hfind' hdr hrc0
    unfold sweepOne
    split
    · rename_i m'' rec hok
      obtain ⟨r'', hfind'', hact'', _, _, _, _⟩ :=
        removeIfIdle_ok_inv m' i now m'.idleTimeout m'' rec hok
      rw [hfind'] at hfind''
      injection hfind'' with he
      subst he
      rw [hdr] at hact''
      exact absurd hact'' (by simp)
    · split
      · rename_i r'' hfind''
        rw [hfind'] at hfind''
        injection hfind'' with he
        subst he
        rw [if_pos ⟨hdr, hrc0⟩]
        constructor
        · show findRec (updateById m'.store i evictF) i = some (evictF r')
          rw [findRec_updateById_self m'.store i evictF (fun t => rfl), hfind']
          rfl
        · rfl
      · rename_i hnone
        rw [hfind'] at hnone
        exact absurd hnone (by simp)

/-- Witness for C6: destroying a record pinned by one in-flight invocation
marks it DRAINING and releases nothing; after the invocation ends and a sweep
runs, touch still fails. -/
theorem C6_explicit_destroy_witness :
    findRec (onExplicitDestroy ⟨[⟨3, 0, 0, 7, 1, .ACTIVE⟩], 4, 8, [], 60, 60, 0, false⟩
        3).store 3 = some ⟨3, 0, 0, 7, 1, .DRAINING⟩
    ∧ (onExplicitDestroy ⟨[⟨3, 0, 0, 7, 1, .ACTIVE⟩], 4, 8, [], 60, 60, 0, false⟩
        3).released = []
    ∧ touch (applyOps (onExplicitDestroy ⟨[⟨3, 0, 0, 7, 1, .ACTIVE⟩], 4, 8, [], 60, 60, 0,
        false⟩ 3) [.invEndOp 3, .sweepOp 100]) 3 5 = .error .NotFound := by
  have h := C6_explicit_destroy ⟨[⟨3, 0, 0, 7, 1, .ACTIVE⟩], 4, 8, [], 60, 60, 0, false⟩ 3
    ⟨3, 0, 0, 7, 1, .ACTIVE⟩ rfl rfl
  have h2 := h.2.1 (by decide)
  exact ⟨h2.1, h2.2.1, h2.2.2 [.invEndOp 3, .sweepOp 100] 5⟩

/-- Claim C7: from every reachable manager state, `shutdown` leaves the store
empty (no record survives) and every resource handle acquired over the
manager's lifetime has been released exactly once — no double release, no
leak — regardless of the idleness or refCount history of the remaining
records; handles never acquired are never released. -/
theorem C7_shutdown_releases_all (m : Manager) (hm : Reachable m) :
    liveRecordCount (shutdown m).store = 0
    ∧ (∀ h, h < m.nextHandle → countNat (shutdown m).released h = 1)
    ∧ (∀ h, m.nextHandle ≤ h → countNat (shutdown m).released h = 0) := by
  have hinv := handleInv_reachable m hm
  have hsh := handleInv_shutdown m hinv
  refine ⟨liveRecordCount_map_evict m.store, ?_, ?_⟩
  · intro h hh
    have hthis := hsh h
    have hz : liveHandleCount (shutdown m).store h = 0 := liveHandleCount_map_evict m.store h
    have hnh : (shutdown m).nextHandle = m.nextHandle := rfl
    rw [hz, hnh, if_pos hh] at hthis
    omega
  · intro h hh
    have hthis := hsh h
    have hz : liveHandleCount (shutdown m).store h = 0 := liveHandleCount_map_evict m.store h
    have hnh : (shutdown m).nextHandle = m.nextHandle := rfl
    rw [hz, hnh, if_neg (by omega)] at hthis
    omega

/-- Witness for C7: after one successful create on a fresh manager, shutdown
empties the store and the single acquired handle 0 is released exactly once,
while the never-acquired handle 1 is not released. -/
theorem C7_shutdown_releases_all_witness :
    liveRecordCount
      (shutdown (applyOp (initManager 60 60 1 true) (.createOp true true 0))).store = 0
    ∧ countNat
        (shutdown (applyOp (initManager 60 60 1 true) (.createOp true true 0))).released 0 = 1
    ∧ countNat
        (shutdown (applyOp (initManager 60 60 1 true) (.createOp true true 0))).released 1 = 0 := by
  have h := C7_shutdown_releases_all (applyOp (initManager 60 60 1 true) (.createOp true true 0))
    (Reachable.step (initManager 60 60 1 true) (.createOp true true 0)
      (Reachable.init 60 60 1 true))
  exact ⟨h.1, h.2.1 0 (by decide), h.2.2 1 (by decide)⟩

/-- Claim C8: in every run, `main` constructs exactly one SimpleObjectManager
— with the fixed arguments `(stderr, 0, 0, 60, "test-entry", 60, 1, 0)` —
and then exactly one Entry domain object from `argv[1]`, before
`CORBA_ORB_run` is entered; the Entry's stringified object reference followed
by a newline is written to the file "entry.ior"; no further objects are
created by `main`. -/
theorem C8_bootstrap_objects (e : Env) :
    (mainEvents e).countP isNewSOMCall = 1
    ∧ (mainEvents e).countP isNewEntryCall = 1
    ∧ (∃ pre mid,
        mainEvents e =
          pre ++ .newSimpleObjectManagerCall .stderrF 0 0 60 "test-entry" 60 1 0 ::
            (mid ++ .newEntryCall (connResult e) e.argv1 ::
              [ .fprintfCall .stderrF "Made...\n"
              , .objectToStringCall
              , .fopenCall "entry.ior" "w" e.fopenOk
              , .fprintfCall (iorFile e) (e.ior ++ "\n")
              , .fcloseCall (iorFile e)
              , .corbaFreeCall
              , .fprintfCall .stderrF "Waiting for Entry requests...\n"
              , .orbRunCall
              , .returnFromMain 0 ])) := by
  refine ⟨rfl, rfl, ?_⟩
  exact ⟨[ .fprintfCall .stderrF "Got in...\n"
         , .mysqlInitCall
         , .mysqlRealConnectCall "localhost" "root" "ensdev" e.connectOk
         , .fprintfCall .stderrF "Connected...\n"
         , .signalCall .SIGINT .sigExit
         , .signalCall .SIGTERM .sigExit
         , .corbaExceptionInitCall
         , .orbInitCall "orbit-local-orb"
         , .resolvePOACall
         , .poaActivateCall ],
        [ .getAdaptorCall, .fprintfCall .stderrF "About to make...\n" ], rfl⟩

/-- Claim C9: `main` installs the C library function `exit` as the handler
for both SIGINT and SIGTERM before the manager or any object exists; the
trace contains no cleanup action at all — no manager shutdown, no eviction,
no database disconnect, and no `atexit` registration — and it ends with the
ORB run loop followed directly by `return 0`: no cleanup path in `main`
releases the acquired resources, on signal or on normal return. -/
theorem C9_no_cleanup_path (e : Env) :
    (∃ pre rest,
        mainEvents e =
          pre ++ .signalCall .SIGINT .sigExit :: .signalCall .SIGTERM .sigExit :: rest
        ∧ pre.countP isNewSOMCall = 0 ∧ pre.countP isNewEntryCall = 0)
    ∧ (mainEvents e).countP isCleanupCall = 0
    ∧ (mainEvents e).countP isAtexitCall = 0
    ∧ (∃ pre', mainEvents e = pre' ++ [.orbRunCall, .returnFromMain 0]) := by
  refine ⟨?_, rfl, rfl, ?_⟩
  · exact ⟨[ .fprintfCall .stderrF "Got in...\n"
           , .mysqlInitCall
           , .mysqlRealConnectCall "localhost" "root" "ensdev" e.connectOk
           , .fprintfCall .stderrF "Connected...\n" ],
          [ .corbaExceptionInitCall
          , .orbInitCall "orbit-local-orb"
          , .resolvePOACall
          , .poaActivateCall
          , .newSimpleObjectManagerCall .stderrF 0 0 60 "test-entry" 60 1 0
          , .getAdaptorCall
          , .fprintfCall .stderrF "About to make...\n"
          , .newEntryCall (connResult e) e.argv1
          , .fprintfCall .stderrF "Made...\n"
          , .objectToStringCall
          , .fopenCall "entry.ior" "w" e.fopenOk
          , .fprintfCall (iorFile e) (e.ior ++ "\n")
          , .fcloseCall (iorFile e)
          , .corbaFreeCall
          , .fprintfCall .stderrF "Waiting for Entry requests...\n"
          , .orbRunCall
          , .returnFromMain 0 ], rfl, rfl, rfl⟩
  · exact ⟨[ .fprintfCall .stderrF "Got in...\n"
           , .mysqlInitCall
           , .mysqlRealConnectCall "localhost" "root" "ensdev" e.connectOk
           , .fprintfCall .stderrF "Connected...\n"
           , .signalCall .SIGINT .sigExit
           , .signalCall .SIGTERM .sigExit
           , .corbaExceptionInitCall
           , .orbInitCall "orbit-local-orb"
           , .resolvePOACall
           , .poaActivateCall
           , .newSimpleObjectManagerCall .stderrF 0 0 60 "test-entry" 60 1 0
           , .getAdaptorCall
           , .fprintfCall .stderrF "About to make...\n"
           , .newEntryCall (connResult e) e.argv1
           , .fprintfCall .stderrF "Made...\n"
           , .objectToStringCall
           , .fopenCall "entry.ior" "w" e.fopenOk
           , .fprintfCall (iorFile e) (e.ior ++ "\n")
           , .fcloseCall (iorFile e)
           , .corbaFreeCall
           , .fprintfCall .stderrF "Waiting for Entry requests...\n" ], rfl⟩

/-- Claim C10: `main` checks none of its fallible steps — the trace has the
same constructor shape in every environment; when `mysql_real_connect` fails,
the NULL connection is still passed to the Entry constructor; `argv[1]` is
passed through unchecked, so a run without a command-line argument hands a
NULL entry name to the Entry constructor; and when `fopen("entry.ior","w")`
fails, `fprintf` and `fclose` are applied to the NULL stream. -/
theorem C10_unchecked_failures (e : Env) :
    ((mainEvents e).map eventKind =
      [0, 1, 2, 0, 4, 4, 6, 7, 8, 9, 10, 13, 0, 14, 0, 15, 16, 0, 17, 18, 0, 19, 20])
    ∧ (∀ (a : Option String) (f : Bool) (s : String), ∃ pre post,
        mainEvents ⟨a, false, f, s⟩ = pre ++ .newEntryCall none a :: post)
    ∧ (∀ (c f : Bool) (s : String), ∃ pre post,
        mainEvents ⟨none, c, f, s⟩ =
          pre ++ .newEntryCall (connResult ⟨none, c, f, s⟩) none :: post)
    ∧ (∀ (a : Option String) (c : Bool) (s : String), ∃ pre post,
        mainEvents ⟨a, c, false, s⟩ =
          pre ++ .fopenCall "entry.ior" "w" false ::
            .fprintfCall (.fileH false) (s ++ "\n") ::
              .fcloseCall (.fileH false) :: post) := by
  refine ⟨rfl, ?_, ?_, ?_⟩
  · intro a f s
    exact ⟨[ .fprintfCall .stderrF "Got in...\n"
           , .mysqlInitCall
           , .mysqlRealConnectCall "localhost" "root" "ensdev" false
           , .fprintfCall .stderrF "Connected...\n"
           , .signalCall .SIGINT .sigExit
           , .signalCall .SIGTERM .sigExit
           , .corbaExceptionInitCall
           , .orbInitCall "orbit-local-orb"
           , .resolvePOACall
           , .poaActivateCall
           , .newSimpleObjectManagerCall .stderrF 0 0 60 "test-entry" 60 1 0
           , .getAdaptorCall
           , .fprintfCall .stderrF "About to make...\n" ],
          [ .fprintfCall .stderrF "Made...\n"
          , .objectToStringCall
          , .fopenCall "entry.ior" "w" f
          , .fprintfCall (.fileH f) (s ++ "\n")
          , .fcloseCall (.fileH f)
          , .corbaFreeCall
          , .fprintfCall .stderrF "Waiting for Entry requests...\n"
          , .orbRunCall
          , .returnFromMain 0 ], rfl⟩
  · intro c f s
    exact ⟨[ .fprintfCall .stderrF "Got in...\n"
           , .mysqlInitCall
           , .mysqlRealConnectCall "localhost" "root" "ensdev" c
           , .fprintfCall .stderrF "Connected...\n"
           , .signalCall .SIGINT .sigExit
           , .signalCall .SIGTERM .sigExit
           , .corbaExceptionInitCall
           , .orbInitCall "orbit-local-orb"
           , .resolvePOACall
           , .poaActivateCall
           , .newSimpleObjectManagerCall .stderrF 0 0 60 "test-entry" 60 1 0
           , .getAdaptorCall
           , .fprintfCall .stderrF "About to make...\n" ],
          [ .fprintfCall .stderrF "Made...\n"
          , .objectToStringCall
          , .fopenCall "entry.ior" "w" f
          , .fprintfCall (.fileH f) (s ++ "\n")
          , .fcloseCall (.fileH f)
          , .corbaFreeCall
          , .fprintfCall .stderrF "Waiting for Entry requests...\n"
          , .orbRunCall
          , .returnFromMain 0 ], rfl⟩
  · intro a c s
    exact ⟨[ .fprintfCall .stderrF "Got in...\n"
           , .mysqlInitCall
           , .mysqlRealConnectCall "localhost" "root" "ensdev" c
           , .fprintfCall .stderrF "Connected...\n"
           , .signalCall .SIGINT .sigExit
           , .signalCall .SIGTERM .sigExit
           , .corbaExceptionInitCall
           , .orbInitCall "orbit-local-orb"
           , .resolvePOACall
           , .poaActivateCall
           , .newSimpleObjectManagerCall .stderrF 0 0 60 "test-entry" 60 1 0
           , .getAdaptorCall
           , .fprintfCall .stderrF "About to make...\n"
           , .newEntryCall (connResult ⟨a, c, false, s⟩) a
           , .fprintfCall .stderrF "Made...\n"
           , .objectToStringCall ],
          [ .corbaFreeCall
          , .fprintfCall .stderrF "Waiting for Entry requests...\n"
          , .orbRunCall
          , .returnFromMain 0 ], rfl⟩
